import Mathlib

/-!
Verification of the `gxlb/ringbuffer` Go repository.

The repository implements a Disruptor-style ring buffer coordinated by four
monotonically increasing cursors (`rReserve`, `rCommit`, `wReserve`,
`wCommit`) over a fixed `size`.  Three variants exist:

* `src/ring_buffer.go` — the main variant: two condition variables
  (`waitReader`, `waitWriter`), commits wake via `Broadcast`.
* `src/unnamed/part_001` — a four-channel variant (`waitReadR`, `waitWriteR`,
  `waitReadC`, `waitWriteC`), commits wake via two `Broadcast` calls.
* `src/unnamed/part_002` — a two-channel variant whose commits wake via
  `Signal` (single wake).

The cursor logic (`ReserveW`, `CommitW`, `ReserveR`, `CommitR`,
`BufferIndex`, `init`, `NewRingBuffer`) is identical across the variants up
to naming; the embedding below follows `src/ring_buffer.go`.

Cursors are Go `uint64` values.  They are modelled as `Nat`; logical-sequence
wraparound at `2^64` is an explicit non-goal of the design, and where 64-bit
wraparound matters to a statement (the `BufferIndex` periodicity claims) the
arithmetic is taken explicitly modulo `U64 = 2^64`.
-/

/-- `2^64`, the modulus of Go's `uint64` arithmetic. -/
def U64 : Nat := 2 ^ 64

/-- The `RingBuffer` struct of `ring_buffer.go`, restricted to the fields the
cursor protocol reads or writes (`debug`, `totalWait` and the `sync.Cond`
wait lists carry no cursor state).  `size` is a Go `int` that is only ever
left at its zero value or set to a positive value, so `Nat` is faithful. -/
structure RingBuffer where
  size : Nat
  rReserve : Nat
  rCommit : Nat
  wReserve : Nat
  wCommit : Nat
  deriving DecidableEq, Repr

/-- The zero value `&RingBuffer{}` allocated at the top of `NewRingBuffer`. -/
def zeroRingBuffer : RingBuffer := ⟨0, 0, 0, 0, 0⟩

/-- The two error conditions `init` can produce (`fmt.Errorf` values). -/
inductive InitError where
  | needParallelism : InitError
  | invalidSize : Int → InitError
  deriving DecidableEq, Repr

/-- `(rb *RingBuffer) init(size int) error` from `ring_buffer.go`.
`runtime.GOMAXPROCS(0)` is the ambient parallelism level, passed in as the
`gomaxprocs` parameter.  On either early `return fmt.Errorf(...)` path the
receiver is left unmodified (in particular `rb.size` stays 0); on success
`rb.size` is set and `nil` is returned. -/
def RingBuffer.init (rb : RingBuffer) (gomaxprocs : Nat) (size : Int) :
    Except InitError RingBuffer :=
  if gomaxprocs < 4 then
    Except.error InitError.needParallelism
  else if size ≤ 0 then
    Except.error (InitError.invalidSize size)
  else
    Except.ok { rb with size := size.toNat }

/-- `NewRingBuffer(size int) *RingBuffer` from `ring_buffer.go`:

```go
p := &RingBuffer{}
p.init(size)
return p
```

The error returned by `p.init(size)` is discarded; `p` is returned in every
case.  When `init` fails it has not modified `p`, so the zero-valued struct
is what the caller receives. -/
def NewRingBuffer (gomaxprocs : Nat) (size : Int) : RingBuffer :=
  match zeroRingBuffer.init gomaxprocs size with
  | Except.ok rb => rb
  | Except.error _ => zeroRingBuffer

/-- `(rb *RingBuffer) BufferIndex(id uint64) int` from `ring_buffer.go`:
`return int(id % uint64(rb.size))`.  Go's `%` panics at runtime when the
divisor is zero; the panic is modelled as `none`. -/
def RingBuffer.BufferIndex (rb : RingBuffer) (id : Nat) : Option Nat :=
  if rb.size = 0 then none else some (id % rb.size)

/-- One iteration of the `CommitW` loop of `ring_buffer.go`: the single
atomic step `atomic.CompareAndSwapUint64(&rb.wCommit, id, id+1)`.  Returns
the CAS result together with the state of the struct after the attempt. -/
def RingBuffer.commitWAttempt (rb : RingBuffer) (id : Nat) : Bool × RingBuffer :=
  if rb.wCommit = id then (true, { rb with wCommit := id + 1 }) else (false, rb)

/-- One iteration of the `CommitR` loop of `ring_buffer.go`: the single
atomic step `atomic.CompareAndSwapUint64(&rb.rCommit, id, id+1)`. -/
def RingBuffer.commitRAttempt (rb : RingBuffer) (id : Nat) : Bool × RingBuffer :=
  if rb.rCommit = id then (true, { rb with rCommit := id + 1 }) else (false, rb)

/-! ## Wait/wake discipline of the three variants

Each successful commit performs a fixed sequence of wake operations on the
variant's condition variables, transcribed below from the `Broadcast()` /
`Signal()` calls in the code. -/

/-- Condition-variable fields across the three variants. -/
inductive WaitChannel where
  | waitReader | waitWriter
  | waitReadR | waitWriteR | waitReadC | waitWriteC
  deriving DecidableEq, Repr

/-- A wake call on a condition variable: `Broadcast` wakes all waiters,
`Signal` wakes one. -/
inductive WakeOp where
  | broadcast : WaitChannel → WakeOp
  | signal : WaitChannel → WakeOp
  deriving DecidableEq, Repr

/-- Whether a wake call is broadcast-style. -/
def WakeOp.isBroadcast : WakeOp → Bool
  | WakeOp.broadcast _ => true
  | WakeOp.signal _ => false

/-- The three buffer variants in the repository. -/
inductive Variant where
  | mainCoarse   -- src/ring_buffer.go
  | fineGrained  -- src/unnamed/part_001 (four channels)
  | coarseSignal -- src/unnamed/part_002 (two channels, Signal)
  deriving DecidableEq, Repr

/-- Wake calls made by a successful write commit, per variant:
`ring_buffer.go` `CommitW` does `rb.waitReader.Broadcast()`; `part_001`
`CommitWrite` does `rb.waitReadR.Broadcast()` then
`rb.waitWriteC.Broadcast()`; `part_002` `CommitW` does
`rb.waitReader.Signal()`. -/
def commitWWakes : Variant → List WakeOp
  | Variant.mainCoarse => [WakeOp.broadcast WaitChannel.waitReader]
  | Variant.fineGrained =>
      [WakeOp.broadcast WaitChannel.waitReadR, WakeOp.broadcast WaitChannel.waitWriteC]
  | Variant.coarseSignal => [WakeOp.signal WaitChannel.waitReader]

/-- Wake calls made by a successful read commit, per variant:
`ring_buffer.go` `CommitR` does `rb.waitWriter.Broadcast()`; `part_001`
`CommitRead` does `rb.waitWriteR.Broadcast()` then
`rb.waitReadC.Broadcast()`; `part_002` `CommitR` does
`rb.waitWriter.Signal()`. -/
def commitRWakes : Variant → List WakeOp
  | Variant.mainCoarse => [WakeOp.broadcast WaitChannel.waitWriter]
  | Variant.fineGrained =>
      [WakeOp.broadcast WaitChannel.waitWriteR, WakeOp.broadcast WaitChannel.waitReadC]
  | Variant.coarseSignal => [WakeOp.signal WaitChannel.waitWriter]

/-! ## Fine-grained transition system over the cursor protocol

The four public operations decompose into individual atomic actions on the
shared cursors, exactly as the code performs them:

* `ReserveW` first executes `id = atomic.AddUint64(&rb.wReserve, 1) - 1`
  (event `rsvWStart`, which takes the pre-increment value as the id), then
  loops loading `rCommit` until `id < rCommit + size`; the loop exiting is
  event `rsvWGrant id`, which changes no cursor.
* `CommitW id` loops attempting the CAS of `wCommit` from `id` to `id + 1`;
  a failed CAS changes nothing, so only the successful attempt appears as
  event `cmtW id`.
* `rsvRStart` / `rsvRGrant` / `cmtR` are the symmetric read-side actions,
  with the grant guard `id < wCommit`.

`pendingW`/`pendingR` record ids whose increment has happened but whose
guard has not yet passed (a caller blocked or looping inside reserve);
`grantedW`/`grantedR` record ids returned by a reserve call and not yet
committed.  This bookkeeping is ghost state of well-formed callers, which
commit exactly the ids their matching reserve returned. -/

/-- Protocol state: the shared cursor fields of the `RingBuffer` struct plus
ghost bookkeeping of outstanding reservations. -/
structure RBState where
  size : Nat
  rReserve : Nat
  rCommit : Nat
  wReserve : Nat
  wCommit : Nat
  pendingW : List Nat
  grantedW : List Nat
  pendingR : List Nat
  grantedR : List Nat
  deriving DecidableEq, Repr

/-- The state of a freshly initialised buffer: all four cursors zero and no
outstanding reservations. -/
def RBState.start (size : Nat) : RBState := ⟨size, 0, 0, 0, 0, [], [], [], []⟩

/-- The atomic events of the protocol. -/
inductive Ev where
  | rsvWStart : Ev
  | rsvWGrant : Nat → Ev
  | cmtW : Nat → Ev
  | rsvRStart : Ev
  | rsvRGrant : Nat → Ev
  | cmtR : Nat → Ev
  deriving DecidableEq, Repr

/-- One atomic action.  `none` means the event is not enabled in `s` (the
guard fails or the CAS would fail): the code then leaves every cursor
unchanged and the caller waits, so no state change occurs. -/
def stepFn (s : RBState) : Ev → Option RBState
  | Ev.rsvWStart =>
      some { s with wReserve := s.wReserve + 1, pendingW := s.wReserve :: s.pendingW }
  | Ev.rsvWGrant id =>
      if id ∈ s.pendingW ∧ id < s.rCommit + s.size then
        some { s with pendingW := s.pendingW.erase id, grantedW := id :: s.grantedW }
      else none
  | Ev.cmtW id =>
      if id ∈ s.grantedW ∧ s.wCommit = id then
        some { s with wCommit := id + 1, grantedW := s.grantedW.erase id }
      else none
  | Ev.rsvRStart =>
      some { s with rReserve := s.rReserve + 1, pendingR := s.rReserve :: s.pendingR }
  | Ev.rsvRGrant id =>
      if id ∈ s.pendingR ∧ id < s.wCommit then
        some { s with pendingR := s.pendingR.erase id, grantedR := id :: s.grantedR }
      else none
  | Ev.cmtR id =>
      if id ∈ s.grantedR ∧ s.rCommit = id then
        some { s with rCommit := id + 1, grantedR := s.grantedR.erase id }
      else none

/-- Execute a sequence of events; `none` if any event is not enabled where
it occurs. -/
def run (s : RBState) : List Ev → Option RBState
  | [] => some s
  | e :: tr =>
      match stepFn s e with
      | some s' => run s' tr
      | none => none

/-- The write-commit ids of a trace, in order of occurrence. -/
def cmtWids : List Ev → List Nat
  | [] => []
  | Ev.cmtW id :: tr => id :: cmtWids tr
  | _ :: tr => cmtWids tr

/-- The read-commit ids of a trace, in order of occurrence. -/
def cmtRids : List Ev → List Nat
  | [] => []
  | Ev.cmtR id :: tr => id :: cmtRids tr
  | _ :: tr => cmtRids tr

/-- Inductive invariant of the protocol: the cursor inequalities that hold
in every reachable state, strengthened with bounds on the outstanding
reservation ids. -/
def AuxInv (s : RBState) : Prop :=
  s.rCommit ≤ s.rReserve ∧ s.rCommit ≤ s.wCommit ∧ s.wCommit ≤ s.wReserve ∧
  s.wCommit ≤ s.rCommit + s.size ∧
  (∀ id ∈ s.pendingW, id < s.wReserve) ∧
  (∀ id ∈ s.grantedW, id < s.wReserve ∧ id < s.rCommit + s.size) ∧
  (∀ id ∈ s.pendingR, id < s.rReserve) ∧
  (∀ id ∈ s.grantedR, id < s.rReserve ∧ id < s.wCommit)

theorem auxInv_start (n : Nat) : AuxInv (RBState.start n) := by
  simp [AuxInv, RBState.start]

theorem stepFn_preserves_auxInv {s s' : RBState} {e : Ev}
    (hinv : AuxInv s) (h : stepFn s e = some s') : AuxInv s' := by
  obtain ⟨h1, h2, h3, h4, h5, h6, h7, h8⟩ := hinv
  cases e with
  | rsvWStart =>
      simp only [stepFn, Option.some.injEq] at h
      subst h
      simp only [AuxInv, List.mem_cons]
      refine ⟨h1, h2, by omega, h4, ?_, ?_, h7, h8⟩
      · rintro id (rfl | hid')
        · omega
        · exact Nat.lt_succ_of_lt (h5 id hid')
      · intro id hid
        exact ⟨Nat.lt_succ_of_lt (h6 id hid).1, (h6 id hid).2⟩
  | rsvWGrant id =>
      simp only [stepFn] at h
      split at h
      · next hg =>
          cases h
          simp only [AuxInv, List.mem_cons]
          refine ⟨h1, h2, h3, h4, ?_, ?_, h7, h8⟩
          · intro i hi
            exact h5 i (List.mem_of_mem_erase hi)
          · rintro i (rfl | hi')
            · exact ⟨h5 i hg.1, hg.2⟩
            · exact h6 i hi'
      · cases h
  | cmtW id =>
      simp only [stepFn] at h
      split at h
      · next hg =>
          cases h
          simp only [AuxInv]
          have hb := h6 id hg.1
          have hc : s.wCommit = id := hg.2
          refine ⟨h1, by omega, by omega, by omega, h5, ?_, h7, ?_⟩
          · intro i hi
            exact h6 i (List.mem_of_mem_erase hi)
          · intro i hi
            exact ⟨(h8 i hi).1, by have := (h8 i hi).2; omega⟩
      · cases h
  | rsvRStart =>
      simp only [stepFn, Option.some.injEq] at h
      subst h
      simp only [AuxInv, List.mem_cons]
      refine ⟨by omega, h2, h3, h4, h5, h6, ?_, ?_⟩
      · rintro id (rfl | hid')
        · omega
        · exact Nat.lt_succ_of_lt (h7 id hid')
      · intro id hid
        exact ⟨Nat.lt_succ_of_lt (h8 id hid).1, (h8 id hid).2⟩
  | rsvRGrant id =>
      simp only [stepFn] at h
      split at h
      · next hg =>
          cases h
          simp only [AuxInv, List.mem_cons]
          refine ⟨h1, h2, h3, h4, h5, h6, ?_, ?_⟩
          · intro i hi
            exact h7 i (List.mem_of_mem_erase hi)
          · rintro i (rfl | hi')
            · exact ⟨h7 i hg.1, hg.2⟩
            · exact h8 i hi'
      · cases h
  | cmtR id =>
      simp only [stepFn] at h
      split at h
      · next hg =>
          cases h
          simp only [AuxInv]
          have hb := h8 id hg.1
          have hc : s.rCommit = id := hg.2
          refine ⟨by omega, by omega, h3, by omega, h5, ?_, h7, ?_⟩
          · intro i hi
            have := h6 i hi
            exact ⟨this.1, by omega⟩
          · intro i hi
            exact h8 i (List.mem_of_mem_erase hi)
      · cases h

theorem run_preserves_auxInv :
    ∀ (tr : List Ev) (s s' : RBState), AuxInv s → run s tr = some s' → AuxInv s' := by
  intro tr
  induction tr with
  | nil =>
      intro s s' hinv h
      simp only [run, Option.some.injEq] at h
      exact h ▸ hinv
  | cons e tr ih =>
      intro s s' hinv h
      simp only [run] at h
      cases hstep : stepFn s e with
      | none => rw [hstep] at h; cases h
      | some s1 =>
          rw [hstep] at h
          exact ih s1 s' (stepFn_preserves_auxInv hinv hstep) h

theorem stepFn_mono {s s' : RBState} {e : Ev} (h : stepFn s e = some s') :
    s.wCommit ≤ s'.wCommit ∧ s.rCommit ≤ s'.rCommit ∧ s'.size = s.size := by
  cases e with
  | rsvWStart =>
      simp only [stepFn, Option.some.injEq] at h
      subst h
      exact ⟨le_refl _, le_refl _, rfl⟩
  | rsvWGrant id =>
      simp only [stepFn] at h
      split at h
      · cases h
        exact ⟨le_refl _, le_refl _, rfl⟩
      · cases h
  | cmtW id =>
      simp only [stepFn] at h
      split at h
      · next hg =>
          cases h
          have hc : s.wCommit = id := hg.2
          refine ⟨?_, le_refl _, rfl⟩
          show s.wCommit ≤ id + 1
          omega
      · cases h
  | rsvRStart =>
      simp only [stepFn, Option.some.injEq] at h
      subst h
      exact ⟨le_refl _, le_refl _, rfl⟩
  | rsvRGrant id =>
      simp only [stepFn] at h
      split at h
      · cases h
        exact ⟨le_refl _, le_refl _, rfl⟩
      · cases h
  | cmtR id =>
      simp only [stepFn] at h
      split at h
      · next hg =>
          cases h
          have hc : s.rCommit = id := hg.2
          refine ⟨le_refl _, ?_, rfl⟩
          show s.rCommit ≤ id + 1
          omega
      · cases h

theorem run_mono : ∀ (tr : List Ev) (s s' : RBState), run s tr = some s' →
    s.wCommit ≤ s'.wCommit ∧ s.rCommit ≤ s'.rCommit ∧ s'.size = s.size := by
  intro tr
  induction tr with
  | nil =>
      intro s s' h
      simp only [run, Option.some.injEq] at h
      subst h
      exact ⟨le_refl _, le_refl _, rfl⟩
  | cons e tr ih =>
      intro s s' h
      simp only [run] at h
      cases hstep : stepFn s e with
      | none => rw [hstep] at h; cases h
      | some s1 =>
          rw [hstep] at h
          have h1 := stepFn_mono hstep
          have h2 := ih s1 s' h
          exact ⟨le_trans h1.1 h2.1, le_trans h1.2.1 h2.2.1, h2.2.2 ▸ h1.2.2⟩

theorem run_cmtWids : ∀ (tr : List Ev) (s s' : RBState), run s tr = some s' →
    cmtWids tr = List.range' s.wCommit (s'.wCommit - s.wCommit) := by
  intro tr
  induction tr with
  | nil =>
      intro s s' h
      simp only [run, Option.some.injEq] at h
      subst h
      simp [cmtWids]
  | cons e tr ih =>
      intro s s' h
      simp only [run] at h
      cases hstep : stepFn s e with
      | none => rw [hstep] at h; cases h
      | some s1 =>
          rw [hstep] at h
          have htr := ih s1 s' h
          have hmono := run_mono tr s1 s' h
          cases e with
          | rsvWStart =>
              simp only [stepFn, Option.some.injEq] at hstep
              subst hstep
              simpa [cmtWids] using htr
          | rsvWGrant id =>
              simp only [stepFn] at hstep
              split at hstep
              · cases hstep
                simpa [cmtWids] using htr
              · cases hstep
          | cmtW id =>
              simp only [stepFn] at hstep
              split at hstep
              · next hg =>
                  cases hstep
                  have hc : s.wCommit = id := hg.2
                  have htr' : cmtWids tr = List.range' (id + 1) (s'.wCommit - (id + 1)) := htr
                  have h1 : id + 1 ≤ s'.wCommit := hmono.1
                  simp only [cmtWids]
                  rw [htr', hc]
                  have h2 : s'.wCommit - id = (s'.wCommit - (id + 1)) + 1 := by omega
                  rw [h2, List.range'_succ]
              · cases hstep
          | rsvRStart =>
              simp only [stepFn, Option.some.injEq] at hstep
              subst hstep
              simpa [cmtWids] using htr
          | rsvRGrant id =>
              simp only [stepFn] at hstep
              split at hstep
              · cases hstep
                simpa [cmtWids] using htr
              · cases hstep
          | cmtR id =>
              simp only [stepFn] at hstep
              split at hstep
              · cases hstep
                simpa [cmtWids] using htr
              · cases hstep

theorem run_cmtRids : ∀ (tr : List Ev) (s s' : RBState), run s tr = some s' →
    cmtRids tr = List.range' s.rCommit (s'.rCommit - s.rCommit) := by
  intro tr
  induction tr with
  | nil =>
      intro s s' h
      simp only [run, Option.some.injEq] at h
      subst h
      simp [cmtRids]
  | cons e tr ih =>
      intro s s' h
      simp only [run] at h
      cases hstep : stepFn s e with
      | none => rw [hstep] at h; cases h
      | some s1 =>
          rw [hstep] at h
          have htr := ih s1 s' h
          have hmono := run_mono tr s1 s' h
          cases e with
          | rsvWStart =>
              simp only [stepFn, Option.some.injEq] at hstep
              subst hstep
              simpa [cmtRids] using htr
          | rsvWGrant id =>
              simp only [stepFn] at hstep
              split at hstep
              · cases hstep
                simpa [cmtRids] using htr
              · cases hstep
          | cmtW id =>
              simp only [stepFn] at hstep
              split at hstep
              · cases hstep
                simpa [cmtRids] using htr
              · cases hstep
          | rsvRStart =>
              simp only [stepFn, Option.some.injEq] at hstep
              subst hstep
              simpa [cmtRids] using htr
          | rsvRGrant id =>
              simp only [stepFn] at hstep
              split at hstep
              · cases hstep
                simpa [cmtRids] using htr
              · cases hstep
          | cmtR id =>
              simp only [stepFn] at hstep
              split at hstep
              · next hg =>
                  cases hstep
                  have hc : s.rCommit = id := hg.2
                  have htr' : cmtRids tr = List.range' (id + 1) (s'.rCommit - (id + 1)) := htr
                  have h1 : id + 1 ≤ s'.rCommit := hmono.2.1
                  simp only [cmtRids]
                  rw [htr', hc]
                  have h2 : s'.rCommit - id = (s'.rCommit - (id + 1)) + 1 := by omega
                  rw [h2, List.range'_succ]
              · cases hstep

theorem run_start_auxInv {n : Nat} {tr : List Ev} {s : RBState}
    (h : run (RBState.start n) tr = some s) : AuxInv s :=
  run_preserves_auxInv tr _ s (auxInv_start n) h

/-! ## Claims -/

/-- C1: the claim says construction with non-positive capacity or
`GOMAXPROCS < 4` returns an error condition to the caller of the
constructor.  The code's `init` does produce the error, but `NewRingBuffer`
discards it (`p.init(size)` with the result ignored) and hands the caller
the zero-valued, unusable (`size = 0`) `RingBuffer` with no error
indication.  This theorem evaluates the code at the failing inputs
`NewRingBuffer(0)` under `GOMAXPROCS = 8` and `NewRingBuffer(5)` under
`GOMAXPROCS = 2`. -/
theorem C1_new_ring_buffer_discards_init_error :
    zeroRingBuffer.init 8 0 = Except.error (InitError.invalidSize 0)
  ∧ NewRingBuffer 8 0 = zeroRingBuffer
  ∧ zeroRingBuffer.init 2 5 = Except.error InitError.needParallelism
  ∧ NewRingBuffer 2 5 = zeroRingBuffer
  ∧ (NewRingBuffer 8 0).size = 0 :=
  ⟨rfl, rfl, rfl, rfl, rfl⟩

/-- The state reached from `RBState.start 1` by a single read-reserve
increment (`atomic.AddUint64(&rb.rReserve, 1)` with the buffer empty, the
reader then blocking in its guard loop). -/
def sAfterRsvR : RBState := ⟨1, 1, 0, 0, 0, [], [], [0], []⟩

/-- C2 counterexample: the chain `readCommit ≤ readReserve ≤ writeCommit ≤
writeReserve` does not hold in every reachable state.  One reserve-read
increment from the all-zero state of a capacity-1 buffer yields an
observable state with `rReserve = 1 > 0 = wCommit`: a reader races ahead of
the write commit cursor and blocks, exactly as spec invariant 3 allows. -/
theorem C2_chain_fails_after_read_reserve :
    run (RBState.start 1) [Ev.rsvRStart] = some sAfterRsvR
  ∧ ¬ (sAfterRsvR.rReserve ≤ sAfterRsvR.wCommit) :=
  ⟨rfl, by decide⟩

/-- C2 (amended): in every state reachable by any sequence of atomic
reserve/commit actions from the all-zero state, the cursors satisfy
`rCommit ≤ rReserve`, `rCommit ≤ wCommit` and `wCommit ≤ wReserve`; the
remaining link of the claimed chain, `rReserve ≤ wCommit`, can fail
transiently while a reader's reservation awaits data, but every id a
reserve-read has actually returned is below `wCommit`. -/
theorem C2_cursor_chain (n : Nat) (tr : List Ev) (s : RBState)
    (h : run (RBState.start n) tr = some s) :
    s.rCommit ≤ s.rReserve ∧ s.rCommit ≤ s.wCommit ∧ s.wCommit ≤ s.wReserve
  ∧ (∀ id ∈ s.grantedR, id < s.wCommit) := by
  obtain ⟨h1, h2, h3, h4, h5, h6, h7, h8⟩ := run_start_auxInv h
  exact ⟨h1, h2, h3, fun id hid => (h8 id hid).2⟩

/-- C2 witness: the amended invariant evaluated in the state reached by one
read-reserve increment from a fresh capacity-1 buffer. -/
theorem C2_cursor_chain_witness :
    sAfterRsvR.rCommit ≤ sAfterRsvR.rReserve
  ∧ sAfterRsvR.rCommit ≤ sAfterRsvR.wCommit
  ∧ sAfterRsvR.wCommit ≤ sAfterRsvR.wReserve
  ∧ (∀ id ∈ sAfterRsvR.grantedR, id < sAfterRsvR.wCommit) :=
  C2_cursor_chain 1 [Ev.rsvRStart] sAfterRsvR rfl

/-- C3: a write-commit CAS attempt for `id` succeeds exactly when `wCommit =
id`, and then sets `wCommit` to `id + 1`; symmetrically for read commits on
`rCommit`.  Consequently commits become visible strictly in reservation
order: along any run from the all-zero state, the successful write-commit
ids form exactly the increasing sequence `0, 1, ..., wCommit - 1`, and the
read-commit ids exactly `0, 1, ..., rCommit - 1`.  (A failed attempt
changes nothing — the committer waits and retries — so only successful
attempts appear as events.) -/
theorem C3_commit_cas_in_order (rb : RingBuffer) (id n : Nat) (tr : List Ev) (s : RBState)
    (h : run (RBState.start n) tr = some s) :
    ((rb.commitWAttempt id).1 = true ↔ rb.wCommit = id)
  ∧ ((rb.commitWAttempt id).1 = true → (rb.commitWAttempt id).2.wCommit = id + 1)
  ∧ ((rb.commitRAttempt id).1 = true ↔ rb.rCommit = id)
  ∧ ((rb.commitRAttempt id).1 = true → (rb.commitRAttempt id).2.rCommit = id + 1)
  ∧ cmtWids tr = List.range s.wCommit
  ∧ cmtRids tr = List.range s.rCommit := by
  have hW := run_cmtWids tr _ s h
  have hR := run_cmtRids tr _ s h
  have hW' : cmtWids tr = List.range s.wCommit := by
    rw [List.range_eq_range']
    exact hW
  have hR' : cmtRids tr = List.range s.rCommit := by
    rw [List.range_eq_range']
    exact hR
  refine ⟨?_, ?_, ?_, ?_, hW', hR'⟩
  · by_cases hc : rb.wCommit = id <;> simp [RingBuffer.commitWAttempt, hc]
  · intro ht
    by_cases hc : rb.wCommit = id
    · simp [RingBuffer.commitWAttempt, hc]
    · simp [RingBuffer.commitWAttempt, hc] at ht
  · by_cases hc : rb.rCommit = id <;> simp [RingBuffer.commitRAttempt, hc]
  · intro ht
    by_cases hc : rb.rCommit = id
    · simp [RingBuffer.commitRAttempt, hc]
    · simp [RingBuffer.commitRAttempt, hc] at ht

/-- C3 witness: the CAS characterisation and trace-order property evaluated
on the zero-valued buffer and the empty run. -/
theorem C3_commit_cas_in_order_witness :
    ((zeroRingBuffer.commitWAttempt 0).1 = true ↔ zeroRingBuffer.wCommit = 0)
  ∧ ((zeroRingBuffer.commitWAttempt 0).1 = true →
        (zeroRingBuffer.commitWAttempt 0).2.wCommit = 0 + 1)
  ∧ ((zeroRingBuffer.commitRAttempt 0).1 = true ↔ zeroRingBuffer.rCommit = 0)
  ∧ ((zeroRingBuffer.commitRAttempt 0).1 = true →
        (zeroRingBuffer.commitRAttempt 0).2.rCommit = 0 + 1)
  ∧ cmtWids [] = List.range (RBState.start 1).wCommit
  ∧ cmtRids [] = List.range (RBState.start 1).rCommit :=
  C3_commit_cas_in_order zeroRingBuffer 0 1 [] (RBState.start 1) rfl

/-- C4: reserve-write atomically increments `wReserve`, the pre-increment
value being the id the caller holds, and the reservation is granted exactly
when `id < rCommit + size` holds against a loaded `rCommit` (otherwise the
caller keeps looping and no grant event exists); symmetrically reserve-read
increments `rReserve` and is granted exactly when `id < wCommit`. -/
theorem C4_reserve_semantics (s : RBState) (id : Nat) :
    stepFn s Ev.rsvWStart =
      some { s with wReserve := s.wReserve + 1, pendingW := s.wReserve :: s.pendingW }
  ∧ ((stepFn s (Ev.rsvWGrant id)).isSome = true ↔
        id ∈ s.pendingW ∧ id < s.rCommit + s.size)
  ∧ stepFn s Ev.rsvRStart =
      some { s with rReserve := s.rReserve + 1, pendingR := s.rReserve :: s.pendingR }
  ∧ ((stepFn s (Ev.rsvRGrant id)).isSome = true ↔
        id ∈ s.pendingR ∧ id < s.wCommit) := by
  refine ⟨rfl, ?_, rfl, ?_⟩
  · simp only [stepFn]
    split
    · next hg => simp [hg]
    · next hg => simp [hg]
  · simp only [stepFn]
    split
    · next hg => simp [hg]
    · next hg => simp [hg]

/-- C4 witness: reserve semantics evaluated on the state with one pending
write reservation. -/
theorem C4_reserve_semantics_witness :
    stepFn sAfterRsvR Ev.rsvWStart =
      some { sAfterRsvR with
              wReserve := sAfterRsvR.wReserve + 1,
              pendingW := sAfterRsvR.wReserve :: sAfterRsvR.pendingW }
  ∧ ((stepFn sAfterRsvR (Ev.rsvWGrant 0)).isSome = true ↔
        0 ∈ sAfterRsvR.pendingW ∧ 0 < sAfterRsvR.rCommit + sAfterRsvR.size)
  ∧ stepFn sAfterRsvR Ev.rsvRStart =
      some { sAfterRsvR with
              rReserve := sAfterRsvR.rReserve + 1,
              pendingR := sAfterRsvR.rReserve :: sAfterRsvR.pendingR }
  ∧ ((stepFn sAfterRsvR (Ev.rsvRGrant 0)).isSome = true ↔
        0 ∈ sAfterRsvR.pendingR ∧ 0 < sAfterRsvR.wCommit) :=
  C4_reserve_semantics sAfterRsvR 0

/-- The state reached from `RBState.start 1` by two write-reserve
increments: two writers have executed `atomic.AddUint64(&rb.wReserve, 1)`
on a full capacity-1 buffer; neither reservation has been granted. -/
def sTwoRsvW : RBState := ⟨1, 0, 0, 2, 0, [1, 0], [], [], []⟩

/-- C5 counterexample: `wReserve - rCommit ≤ size` does not hold at every
instant.  On a capacity-1 buffer, two write-reserve increments from the
all-zero state produce the observable state `wReserve = 2`, `rCommit = 0`,
because the reserve cursor is incremented before the fullness check; the
excess reservations are merely not yet granted. -/
theorem C5_bound_fails_with_pending_reservations :
    run (RBState.start 1) [Ev.rsvWStart, Ev.rsvWStart] = some sTwoRsvW
  ∧ ¬ (sTwoRsvW.wReserve - sTwoRsvW.rCommit ≤ sTwoRsvW.size) :=
  ⟨rfl, by decide⟩

/-- C5 (amended): in every reachable state, every write reservation that
has actually been *granted* (returned by `ReserveW`) satisfies
`id < rCommit + size`, and `wCommit ≤ rCommit + size` — so no granted
reservation and no committed write ever touches a slot not yet vacated by a
consumer-side commit.  `wReserve` itself can exceed `rCommit + size` while
over-eager writers are blocked waiting inside `ReserveW`. -/
theorem C5_granted_write_reservations_bounded (n : Nat) (tr : List Ev) (s : RBState)
    (h : run (RBState.start n) tr = some s) :
    (∀ id ∈ s.grantedW, id < s.rCommit + s.size)
  ∧ s.wCommit ≤ s.rCommit + s.size
  ∧ s.size = n := by
  obtain ⟨h1, h2, h3, h4, h5, h6, h7, h8⟩ := run_start_auxInv h
  exact ⟨fun id hid => (h6 id hid).2, h4, (run_mono tr _ s h).2.2⟩

/-- The state reached from `RBState.start 1` by one granted write
reservation. -/
def sGrantedW : RBState := ⟨1, 0, 0, 1, 0, [], [0], [], []⟩

/-- C5 witness: the amended bound evaluated after a granted write
reservation on a capacity-1 buffer. -/
theorem C5_granted_write_reservations_bounded_witness :
    (∀ id ∈ sGrantedW.grantedW, id < sGrantedW.rCommit + sGrantedW.size)
  ∧ sGrantedW.wCommit ≤ sGrantedW.rCommit + sGrantedW.size
  ∧ sGrantedW.size = 1 :=
  C5_granted_write_reservations_bounded 1 [Ev.rsvWStart, Ev.rsvWGrant 0] sGrantedW rfl

/-- C6: the capacity-2 single-threaded scenario.  From the all-zero state:
write-reserve returns id 0 and commit-write(0) makes `wCommit = 1`; then
read-reserve returns id 0 immediately (0 < 1) and commit-read(0) makes
`rCommit = 1`; then a second write-reserve returns id 1 without blocking,
its guard `1 < rCommit + size = 3` holding at once.  The three conjuncts
give the runs up to each checkpoint with the full cursor state. -/
theorem C6_capacity_two_scenario :
    run (RBState.start 2) [Ev.rsvWStart, Ev.rsvWGrant 0, Ev.cmtW 0] =
      some (RBState.mk 2 0 0 1 1 [] [] [] [])
  ∧ run (RBState.start 2)
      [Ev.rsvWStart, Ev.rsvWGrant 0, Ev.cmtW 0,
       Ev.rsvRStart, Ev.rsvRGrant 0, Ev.cmtR 0] =
      some (RBState.mk 2 1 1 1 1 [] [] [] [])
  ∧ run (RBState.start 2)
      [Ev.rsvWStart, Ev.rsvWGrant 0, Ev.cmtW 0,
       Ev.rsvRStart, Ev.rsvRGrant 0, Ev.cmtR 0,
       Ev.rsvWStart, Ev.rsvWGrant 1] =
      some (RBState.mk 2 1 1 2 1 [] [1] [] []) :=
  ⟨rfl, rfl, rfl⟩

/-- C7 counterexample: not every variant wakes broadcast-style on commit.
In `src/unnamed/part_002`, `CommitW` wakes with `rb.waitReader.Signal()`
and `CommitR` with `rb.waitWriter.Signal()` — single-wake, not broadcast. -/
theorem C7_signal_variant_single_wake :
    commitWWakes Variant.coarseSignal = [WakeOp.signal WaitChannel.waitReader]
  ∧ commitRWakes Variant.coarseSignal = [WakeOp.signal WaitChannel.waitWriter]
  ∧ (WakeOp.signal WaitChannel.waitReader).isBroadcast = false
  ∧ (WakeOp.signal WaitChannel.waitWriter).isBroadcast = false :=
  ⟨rfl, rfl, rfl, rfl⟩

/-- C7 (amended): in `src/ring_buffer.go` and in the four-channel variant
(`src/unnamed/part_001`) every wake performed by a successful commit
(write or read) is broadcast-style; the two-channel variant in
`src/unnamed/part_002` instead performs single-wake `Signal` on every
commit. -/
theorem C7_broadcast_wake_per_variant :
    ((commitWWakes Variant.mainCoarse ++ commitRWakes Variant.mainCoarse ++
      commitWWakes Variant.fineGrained ++ commitRWakes Variant.fineGrained).all
        WakeOp.isBroadcast = true)
  ∧ ((commitWWakes Variant.coarseSignal ++ commitRWakes Variant.coarseSignal).all
        (fun w => !w.isBroadcast) = true) :=
  ⟨rfl, rfl⟩

/-- A capacity-3 buffer in its freshly initialised state. -/
def rbCap3 : RingBuffer := ⟨3, 0, 0, 0, 0⟩

/-- C8 counterexample: over the 64-bit unsigned sequence space the code
uses, `slot-index-of` is not periodic in the capacity.  With capacity 3,
sequence 0 and `k = 6148914691236517206`, the sum `0 + k * 3 =
2^64 + 2` wraps to 2, whose slot index is 2 ≠ 0. -/
theorem C8_periodicity_fails_at_wraparound :
    rbCap3.BufferIndex ((0 + 6148914691236517206 * 3) % U64) = some 2
  ∧ rbCap3.BufferIndex 0 = some 0
  ∧ rbCap3.BufferIndex ((0 + 6148914691236517206 * 3) % U64) ≠
      rbCap3.BufferIndex 0 :=
  ⟨rfl, rfl, by decide⟩

/-- C8 (amended): `slot-index-of(s) = slot-index-of(s + k * capacity)` for
every sequence `s` and non-negative `k` such that the 64-bit addition does
not wrap, i.e. `s + k * capacity < 2^64`. -/
theorem C8_periodicity_no_overflow (rb : RingBuffer) (s k : Nat)
    (hpos : 0 < rb.size) (hnow : s + k * rb.size < U64) :
    rb.BufferIndex ((s + k * rb.size) % U64) = rb.BufferIndex s := by
  rw [Nat.mod_eq_of_lt hnow]
  unfold RingBuffer.BufferIndex
  rw [if_neg (by omega), if_neg (by omega)]
  rw [Nat.add_mul_mod_self_right]

/-- C8 witness: periodicity instantiated at capacity 3, sequence 5, k = 2. -/
theorem C8_periodicity_no_overflow_witness :
    0 < rbCap3.size ∧ 5 + 2 * rbCap3.size < U64
  ∧ rbCap3.BufferIndex ((5 + 2 * rbCap3.size) % U64) = rbCap3.BufferIndex 5 :=
  ⟨by decide, by decide, C8_periodicity_no_overflow rbCap3 5 2 (by decide) (by decide)⟩

/-- C9: when the construction preconditions are violated, `NewRingBuffer`
still returns a `RingBuffer` whose `size` field is 0; `BufferIndex(id)` on
such an instance evaluates `id mod 0` (a Go runtime divide-by-zero panic,
modelled as `none`), and the division takes its divisor-nonzero branch
exactly under the precondition `size > 0`, in which case it computes
`id mod size`. -/
theorem C9_unguarded_modulo :
    (NewRingBuffer 8 0).size = 0
  ∧ (NewRingBuffer 2 5).size = 0
  ∧ (∀ id : Nat, (NewRingBuffer 8 0).BufferIndex id = none)
  ∧ (∀ rb : RingBuffer, ∀ id : Nat, 0 < rb.size →
      rb.BufferIndex id = some (id % rb.size)) := by
  refine ⟨rfl, rfl, fun id => rfl, ?_⟩
  intro rb id h
  unfold RingBuffer.BufferIndex
  rw [if_neg (by omega)]

/-- C9 witness: the unguarded modulo evaluated at concrete instances. -/
theorem C9_unguarded_modulo_witness :
    (NewRingBuffer 8 0).BufferIndex 7 = none
  ∧ rbCap3.BufferIndex 7 = some 1 :=
  ⟨C9_unguarded_modulo.2.2.1 7, C9_unguarded_modulo.2.2.2 rbCap3 7 (by decide)⟩

/-- C10: a commit CAS attempt that fails (the commit cursor differs from
`id`) leaves the whole struct — all four cursors and the capacity —
unchanged; a successful attempt changes exactly the committing cursor, from
`id` to `id + 1`, and nothing else. -/
theorem C10_commit_attempt_atomicity (rb : RingBuffer) (id : Nat) :
    ((rb.commitWAttempt id).1 = false → (rb.commitWAttempt id).2 = rb)
  ∧ ((rb.commitWAttempt id).1 = true →
      (rb.commitWAttempt id).2 = { rb with wCommit := id + 1 })
  ∧ ((rb.commitRAttempt id).1 = false → (rb.commitRAttempt id).2 = rb)
  ∧ ((rb.commitRAttempt id).1 = true →
      (rb.commitRAttempt id).2 = { rb with rCommit := id + 1 }) := by
  by_cases hcw : rb.wCommit = id <;> by_cases hcr : rb.rCommit = id <;>
    simp [RingBuffer.commitWAttempt, RingBuffer.commitRAttempt, hcw, hcr]

/-- C10 witness: a failing write-commit attempt leaves the capacity-3
buffer unchanged; a succeeding one only advances `wCommit`. -/
theorem C10_commit_attempt_atomicity_witness :
    (rbCap3.commitWAttempt 7).2 = rbCap3
  ∧ (rbCap3.commitWAttempt 0).2 = { rbCap3 with wCommit := 1 } :=
  ⟨(C10_commit_attempt_atomicity rbCap3 7).1 rfl,
   (C10_commit_attempt_atomicity rbCap3 0).2.1 rfl⟩
